import Mathlib

/-! Verification of the signal-frame generation and conversion-simulation core of
the ProtoSim repository (src/utils/protocolLogic.ts, src/components/ADCVisualizer.tsx,
src/components/DACVisualizer.tsx).

Conventions of the embedding:
* Logic levels (the TypeScript union 0 | 1) are naturals.
* Durations (TypeScript number, only ever 1 or 0.5 here) are rationals.
* Voltages (TypeScript floating-point numbers) are rationals; the arithmetic the
  source performs on them is exact in every theorem below, so the rational model
  is faithful.
* The source's `id` field is assigned as `idCounter++` at each push, so it always
  equals the frame's position in the returned array; the embedding represents it
  implicitly by list position and omits the field.
* JavaScript strings are lists of UTF-16 code units; `charCodeAt(0)` is the head
  of that list, so a string input is embedded as `List ℕ`.
-/

namespace ProtoSim

/-- MSB-first readback of a bit list: the natural number whose binary digits are
the list read most-significant first.  Harness for the round-trip claims. -/
def readMSB (bits : List ℕ) : ℕ := bits.foldl (fun acc b => 2 * acc + b) 0

/-- LSB-first readback of a bit list. -/
def readLSB (bits : List ℕ) : ℕ := bits.foldr (fun b acc => b + 2 * acc) 0

/-- Semantic tag of a UART frame (the source's `SignalFrame.type` union). -/
inductive SigTag where
  | start | stop | data | parity | idle | ack | nack | address | rw
deriving DecidableEq, Repr

/-- One UART signal frame (src/types.ts `SignalFrame`, minus the positional `id`). -/
structure SignalFrame where
  label : String
  level : ℕ
  type : SigTag
  duration : ℚ
deriving DecidableEq, Repr

def labelIdle : String := "Idle"
def labelStart : String := "Start"
def labelStop : String := "Stop"
def labelACK : String := "ACK"
def labelW : String := "W"
def labelNone : String := ""
def labelD (i : ℕ) : String := "D" ++ toString i
def labelA (i : ℕ) : String := "A" ++ toString i

/-- The 12 frames built by `generateUARTSequence` for a first character with code
`ascii`: idle, start, 8 data bits LSB-first (`(ascii >> i) & 1`), stop, idle. -/
def uartFrames (ascii : ℕ) : List SignalFrame :=
  [⟨labelIdle, 1, SigTag.idle, 1⟩,
   ⟨labelStart, 0, SigTag.start, 1⟩]
  ++ (List.range 8).map (fun i => ⟨labelD i, (ascii >>> i) &&& 1, SigTag.data, 1⟩)
  ++ [⟨labelStop, 1, SigTag.stop, 1⟩,
      ⟨labelIdle, 1, SigTag.idle, 1⟩]

/-- src/utils/protocolLogic.ts `generateUARTSequence`: empty string gives no
frames, otherwise the trace is built from `char.charCodeAt(0)`, the head. -/
def generateUARTSequence (char : List ℕ) : List SignalFrame :=
  match char with
  | [] => []
  | ascii :: _ => uartFrames ascii

/-- Levels of frames 2..9 of a UART trace (the data bits, LSB first). -/
def uartDataBitsLSB (fs : List SignalFrame) : List ℕ :=
  (List.range 8).map (fun i => ((fs[2 + i]?).map SignalFrame.level).getD 0)

/-- C9: for every 8-bit ordinal `c` the UART trace has exactly 12 frames of
duration 1 each; frames 2..9 carry the bits of `c` LSB-first; frames 0 and 11
are idle-high, frame 1 is start-low, frame 10 is stop-high. -/
theorem uart_frame_layout (c : ℕ) (hc : c < 256) :
    (generateUARTSequence [c]).length = 12 ∧
    (generateUARTSequence [c]).map (fun f => f.duration) = List.replicate 12 1 ∧
    readLSB (uartDataBitsLSB (generateUARTSequence [c])) = c ∧
    ((generateUARTSequence [c])[0]?).map (fun f => (f.level, f.type)) = some (1, SigTag.idle) ∧
    ((generateUARTSequence [c])[11]?).map (fun f => (f.level, f.type)) = some (1, SigTag.idle) ∧
    ((generateUARTSequence [c])[1]?).map (fun f => (f.level, f.type)) = some (0, SigTag.start) ∧
    ((generateUARTSequence [c])[10]?).map (fun f => (f.level, f.type)) = some (1, SigTag.stop) := by
  refine ⟨rfl, rfl, ?_, rfl, rfl, rfl, rfl⟩
  have h : readLSB (uartDataBitsLSB (generateUARTSequence [c])) =
      ((c >>> 0) &&& 1) + 2 * (((c >>> 1) &&& 1) + 2 * (((c >>> 2) &&& 1) +
        2 * (((c >>> 3) &&& 1) + 2 * (((c >>> 4) &&& 1) + 2 * (((c >>> 5) &&& 1) +
        2 * (((c >>> 6) &&& 1) + 2 * ((c >>> 7) &&& 1))))))) := rfl
  rw [h]
  simp only [Nat.shiftRight_eq_div_pow, Nat.and_one_is_mod]
  norm_num
  omega

/-- Witness for `uart_frame_layout` at the concrete ordinal 75. -/
theorem uart_frame_layout_witness :
    75 < 256 ∧
    ((generateUARTSequence [75]).length = 12 ∧
     (generateUARTSequence [75]).map (fun f => f.duration) = List.replicate 12 1 ∧
     readLSB (uartDataBitsLSB (generateUARTSequence [75])) = 75 ∧
     ((generateUARTSequence [75])[0]?).map (fun f => (f.level, f.type)) = some (1, SigTag.idle) ∧
     ((generateUARTSequence [75])[11]?).map (fun f => (f.level, f.type)) = some (1, SigTag.idle) ∧
     ((generateUARTSequence [75])[1]?).map (fun f => (f.level, f.type)) = some (0, SigTag.start) ∧
     ((generateUARTSequence [75])[10]?).map (fun f => (f.level, f.type)) = some (1, SigTag.stop)) :=
  ⟨by norm_num, uart_frame_layout 75 (by norm_num)⟩

/-- C10: the UART generator returns no frames for the empty string, the 12-frame
trace of the first character for any non-empty string, and the empty string is
the only input with fewer than 12 frames. -/
theorem uart_empty_and_head (s : List ℕ) :
    generateUARTSequence [] = [] ∧
    (∀ c rest, generateUARTSequence (c :: rest) = uartFrames c) ∧
    (∀ c, (uartFrames c).length = 12) ∧
    ((generateUARTSequence s).length < 12 ↔ s = []) := by
  refine ⟨rfl, fun c rest => rfl, fun c => rfl, ?_⟩
  cases s with
  | nil => simp [generateUARTSequence]
  | cons c rest =>
      constructor
      · intro h
        exact absurd h (by simp [generateUARTSequence, uartFrames])
      · intro h
        exact absurd h (by simp)

/-- Witness for `uart_empty_and_head` at the concrete string "Kc" = [75, 99]. -/
theorem uart_empty_and_head_witness :
    generateUARTSequence [] = [] ∧
    generateUARTSequence [75, 99] = uartFrames 75 ∧
    ((generateUARTSequence [75, 99]).length < 12 ↔ ([75, 99] : List ℕ) = []) :=
  ⟨(uart_empty_and_head []).1,
   (uart_empty_and_head [75, 99]).2.1 75 [99],
   (uart_empty_and_head [75, 99]).2.2.2⟩

/-! ## I2C standard frame generator -/

/-- Semantic tag of an I2C frame (the source's `I2CSignalFrame.type` union). -/
inductive I2CTag where
  | start | stop | data | ack | nack | idle | address
deriving DecidableEq, Repr

/-- Per-master state tag used by the arbitration trace. -/
inductive MasterState where
  | active | lost | idle
deriving DecidableEq, Repr

/-- One I2C frame (src/types.ts `I2CSignalFrame`, minus the positional `id`).
The per-master fields are optional in the source and populated only by the
arbitration generator. -/
structure I2CSignalFrame where
  label : String
  sda : ℕ
  scl : ℕ
  type : I2CTag
  duration : ℚ
  sdaA : Option ℕ
  sdaB : Option ℕ
  masterAState : Option MasterState
  masterBState : Option MasterState
deriving DecidableEq, Repr

/-- The three half-unit frames the standard generator emits per bit: set data
while the clock is low, raise the clock, lower the clock, SDA held at `bit`. -/
def i2cBitTriple (label : String) (bit : ℕ) (tag : I2CTag) : List I2CSignalFrame :=
  [⟨label, bit, 0, tag, 1/2, none, none, none, none⟩,
   ⟨label, bit, 1, tag, 1/2, none, none, none, none⟩,
   ⟨label, bit, 0, tag, 1/2, none, none, none, none⟩]

/-- src/utils/protocolLogic.ts `generateI2CSequence`: idle, start, settle,
7 address bits MSB-first, write bit, ACK, 8 data bits MSB-first, ACK, stop. -/
def generateI2CSequence (address data : ℕ) : List I2CSignalFrame :=
  [⟨labelIdle, 1, 1, I2CTag.idle, 1, none, none, none, none⟩,
   ⟨labelStart, 0, 1, I2CTag.start, 1, none, none, none, none⟩,
   ⟨labelNone, 0, 0, I2CTag.start, 1/2, none, none, none, none⟩]
  ++ ([6, 5, 4, 3, 2, 1, 0] : List ℕ).flatMap
      (fun i => i2cBitTriple (labelA i) ((address >>> i) &&& 1) I2CTag.address)
  ++ i2cBitTriple labelW 0 I2CTag.address
  ++ i2cBitTriple labelACK 0 I2CTag.ack
  ++ ([7, 6, 5, 4, 3, 2, 1, 0] : List ℕ).flatMap
      (fun i => i2cBitTriple (labelD i) ((data >>> i) &&& 1) I2CTag.data)
  ++ i2cBitTriple labelACK 0 I2CTag.ack
  ++ [⟨labelStop, 0, 0, I2CTag.stop, 1/2, none, none, none, none⟩,
      ⟨labelStop, 0, 1, I2CTag.stop, 1/2, none, none, none, none⟩,
      ⟨labelStop, 1, 1, I2CTag.stop, 1, none, none, none, none⟩]

/-- Readback harness: SDA sampled on the clock-high (middle) frame of `cnt`
consecutive three-frame bit groups starting at frame index `start`. -/
def sampleTriples (fs : List I2CSignalFrame) (start cnt : ℕ) : List ℕ :=
  (List.range cnt).map (fun t => ((fs[start + 3 * t + 1]?).map I2CSignalFrame.sda).getD 0)

/-- MSB-first readback of the seven bits of a 7-bit value recovers the value. -/
theorem readMSB_seven (n : ℕ) (h : n < 128) :
    readMSB [(n >>> 6) &&& 1, (n >>> 5) &&& 1, (n >>> 4) &&& 1, (n >>> 3) &&& 1,
             (n >>> 2) &&& 1, (n >>> 1) &&& 1, (n >>> 0) &&& 1] = n := by
  simp only [readMSB, List.foldl_cons, List.foldl_nil, Nat.shiftRight_eq_div_pow,
    Nat.and_one_is_mod]
  norm_num
  omega

/-- MSB-first readback of the eight bits of a byte recovers the byte. -/
theorem readMSB_eight (n : ℕ) (h : n < 256) :
    readMSB [(n >>> 7) &&& 1, (n >>> 6) &&& 1, (n >>> 5) &&& 1, (n >>> 4) &&& 1,
             (n >>> 3) &&& 1, (n >>> 2) &&& 1, (n >>> 1) &&& 1, (n >>> 0) &&& 1] = n := by
  simp only [readMSB, List.foldl_cons, List.foldl_nil, Nat.shiftRight_eq_div_pow,
    Nat.and_one_is_mod]
  norm_num
  omega

/-- The content of claim C5 for a concrete `(a, d)` pair: MSB-first readback of
the address and data phases recovers the inputs; every address-phase and
data-phase bit is three half-unit frames with SCL 0, 1, 0 and constant SDA; the
six acknowledge frames (indices 27-29 and 54-56) assert SDA low. -/
def I2CRoundTrip (a d : ℕ) : Prop :=
  readMSB (sampleTriples (generateI2CSequence a d) 3 7) = a ∧
  readMSB (sampleTriples (generateI2CSequence a d) 30 8) = d ∧
  (∀ t < 7, ∃ f1 f2 f3,
     (generateI2CSequence a d)[3 + 3 * t]? = some f1 ∧
     (generateI2CSequence a d)[3 + 3 * t + 1]? = some f2 ∧
     (generateI2CSequence a d)[3 + 3 * t + 2]? = some f3 ∧
     f1.sda = f2.sda ∧ f2.sda = f3.sda ∧ f1.scl = 0 ∧ f2.scl = 1 ∧ f3.scl = 0 ∧
     f1.duration = 1/2 ∧ f2.duration = 1/2 ∧ f3.duration = 1/2 ∧
     f1.type = I2CTag.address) ∧
  (∀ t < 8, ∃ f1 f2 f3,
     (generateI2CSequence a d)[30 + 3 * t]? = some f1 ∧
     (generateI2CSequence a d)[30 + 3 * t + 1]? = some f2 ∧
     (generateI2CSequence a d)[30 + 3 * t + 2]? = some f3 ∧
     f1.sda = f2.sda ∧ f2.sda = f3.sda ∧ f1.scl = 0 ∧ f2.scl = 1 ∧ f3.scl = 0 ∧
     f1.duration = 1/2 ∧ f2.duration = 1/2 ∧ f3.duration = 1/2 ∧
     f1.type = I2CTag.data) ∧
  (∀ t, t ∈ ([27, 28, 29, 54, 55, 56] : List ℕ) →
     ((generateI2CSequence a d)[t]?).map (fun f => (f.sda, f.type)) = some (0, I2CTag.ack))

set_option maxHeartbeats 1600000 in
/-- C5: for every 7-bit address and 8-bit data byte, the standard I2C trace
reproduces both MSB-first, emits every bit as three half-unit frames with SDA
constant and SCL 0, 1, 0, and asserts SDA low in both acknowledge phases. -/
theorem i2c_roundtrip (a d : ℕ) (ha : a < 128) (hd : d < 256) : I2CRoundTrip a d := by
  refine ⟨?_, ?_, ?_, ?_, ?_⟩
  · have h : sampleTriples (generateI2CSequence a d) 3 7 =
        [(a >>> 6) &&& 1, (a >>> 5) &&& 1, (a >>> 4) &&& 1, (a >>> 3) &&& 1,
         (a >>> 2) &&& 1, (a >>> 1) &&& 1, (a >>> 0) &&& 1] := rfl
    rw [h]
    exact readMSB_seven a ha
  · have h : sampleTriples (generateI2CSequence a d) 30 8 =
        [(d >>> 7) &&& 1, (d >>> 6) &&& 1, (d >>> 5) &&& 1, (d >>> 4) &&& 1,
         (d >>> 3) &&& 1, (d >>> 2) &&& 1, (d >>> 1) &&& 1, (d >>> 0) &&& 1] := rfl
    rw [h]
    exact readMSB_eight d hd
  · intro t ht
    interval_cases t <;>
      exact ⟨_, _, _, rfl, rfl, rfl, rfl, rfl, rfl, rfl, rfl, rfl, rfl, rfl, rfl⟩
  · intro t ht
    interval_cases t <;>
      exact ⟨_, _, _, rfl, rfl, rfl, rfl, rfl, rfl, rfl, rfl, rfl, rfl, rfl, rfl⟩
  · intro t ht
    fin_cases ht <;> rfl

/-- Witness for `i2c_roundtrip` at address 0x42 and data 0x15. -/
theorem i2c_roundtrip_witness : 66 < 128 ∧ 21 < 256 ∧ I2CRoundTrip 66 21 :=
  ⟨by norm_num, by norm_num, i2c_roundtrip 66 21 (by norm_num) (by norm_num)⟩

/-! ## DAC R-2R ladder simulator (src/components/DACVisualizer.tsx) -/

/-- src/components/DACVisualizer.tsx: largest representable code. -/
def dacMaxVal (resolution : ℕ) : ℕ := 2 ^ resolution - 1

/-- src/components/DACVisualizer.tsx: one LSB step `vRef / 2^resolution`. -/
def dacStepSize (vRef : ℚ) (resolution : ℕ) : ℚ := vRef / 2 ^ resolution

/-- src/components/DACVisualizer.tsx: `outputVoltage = value * stepSize`, with
the raw (unmasked) register value. -/
def dacOutputVoltage (vRef : ℚ) (resolution : ℕ) (value : ℕ) : ℚ :=
  value * dacStepSize vRef resolution

/-- src/components/DACVisualizer.tsx `bits`: per-bit switch levels, MSB first,
each `(value >> i) & 1`; 1 connects the switch to the reference rail. -/
def dacBits (resolution : ℕ) (value : ℕ) : List ℕ :=
  (List.range resolution).reverse.map (fun i => (value >>> i) &&& 1)

/-- Reducing a value mod `2^N` does not change bits below position `N`. -/
theorem shift_and_mod (v N i : ℕ) (h : i < N) :
    ((v % 2 ^ N) >>> i) &&& 1 = (v >>> i) &&& 1 := by
  simp only [Nat.shiftRight_eq_div_pow, Nat.and_one_is_mod]
  rw [← Nat.mod_mul_right_div_self, ← Nat.mod_mul_right_div_self]
  have h2 : (2 : ℕ) ^ i * 2 = 2 ^ (i + 1) := (pow_succ 2 i).symm
  rw [h2, Nat.mod_mod_of_dvd]
  exact pow_dvd_pow 2 h

/-- C3 counterexample: at N = 4, vRef = 1, the out-of-range code 16 produces
output voltage 1, while 16 mod 2^4 = 0 produces 0 — the DAC does not mask the
code before computing the analog output. -/
theorem dac_mask_counterexample :
    dacOutputVoltage 1 4 16 ≠ dacOutputVoltage 1 4 (16 % 2 ^ 4) := by
  norm_num [dacOutputVoltage, dacStepSize]

/-- C3 amended: the per-bit switch states are those of `D mod 2^N`, but the
analog output voltage is computed from the raw `D` as `D * vRef / 2^N`, so for
`D ≥ 2^N` and positive reference it differs from the masked code's voltage. -/
theorem dac_bits_masked_voltage_unmasked (vRef : ℚ) (resolution value : ℕ) :
    dacBits resolution value = dacBits resolution (value % 2 ^ resolution) ∧
    dacOutputVoltage vRef resolution value = value * (vRef / 2 ^ resolution) ∧
    (2 ^ resolution ≤ value → 0 < vRef →
      dacOutputVoltage vRef resolution value ≠
        dacOutputVoltage vRef resolution (value % 2 ^ resolution)) := by
  refine ⟨?_, rfl, ?_⟩
  · unfold dacBits
    refine List.map_congr_left ?_
    intro i hi
    rw [List.mem_reverse, List.mem_range] at hi
    exact (shift_and_mod value resolution i hi).symm
  · intro hval hpos
    unfold dacOutputVoltage dacStepSize
    have hlt : value % 2 ^ resolution < value :=
      lt_of_lt_of_le (Nat.mod_lt value (Nat.pos_of_ne_zero (by positivity))) hval
    have hcast : ((value % 2 ^ resolution : ℕ) : ℚ) < (value : ℕ) := by
      exact_mod_cast hlt
    have hstep : (0 : ℚ) < vRef / 2 ^ resolution := by positivity
    exact ne_of_gt (mul_lt_mul_of_pos_right hcast hstep)

/-- Witness for `dac_bits_masked_voltage_unmasked` at vRef = 1, N = 4, D = 16. -/
theorem dac_bits_masked_voltage_unmasked_witness :
    dacBits 4 16 = dacBits 4 (16 % 2 ^ 4) ∧
    dacOutputVoltage 1 4 16 = (16 : ℕ) * ((1 : ℚ) / 2 ^ 4) ∧
    dacOutputVoltage 1 4 16 ≠ dacOutputVoltage 1 4 (16 % 2 ^ 4) :=
  ⟨(dac_bits_masked_voltage_unmasked 1 4 16).1,
   (dac_bits_masked_voltage_unmasked 1 4 16).2.1,
   (dac_bits_masked_voltage_unmasked 1 4 16).2.2 (by norm_num) (by norm_num)⟩

/-! ## ADC simulators (src/components/ADCVisualizer.tsx) -/

/-- One SAR step record: bit index, bit weight, trial voltage, kept decision,
and cumulative approximation after the step. -/
structure SarStep where
  bitIndex : ℕ
  bitWeight : ℚ
  trialVoltage : ℚ
  decision : ℕ
  currentApproximation : ℚ
deriving DecidableEq, Repr

/-- SAR loop body over the remaining iteration indices `i`, threading the
running approximation `currentDacVal`; the bit weight of iteration `i` is
`vRef / 2^(i+1)` and a bit is kept iff the input is at least the trial value. -/
def sarFold (inputVoltage vRef : ℚ) (resolution : ℕ) :
    List ℕ → ℚ → List SarStep
  | [], _ => []
  | i :: rest, currentDacVal =>
    let bitWeight := vRef / 2 ^ (i + 1)
    let trialVal := currentDacVal + bitWeight
    if trialVal ≤ inputVoltage then
      ⟨resolution - 1 - i, bitWeight, trialVal, 1, trialVal⟩ ::
        sarFold inputVoltage vRef resolution rest trialVal
    else
      ⟨resolution - 1 - i, bitWeight, trialVal, 0, currentDacVal⟩ ::
        sarFold inputVoltage vRef resolution rest currentDacVal

/-- src/components/ADCVisualizer.tsx `sarSteps`: iterate i = 0 .. resolution-1
starting from approximation 0. -/
def sarSteps (inputVoltage vRef : ℚ) (resolution : ℕ) : List SarStep :=
  sarFold inputVoltage vRef resolution (List.range resolution) 0

/-- Approximation after the last executed step (`cur` when none ran); the
source reads it back as `sarSteps[sarSteps.length - 1].currentApproximation`. -/
def sarFinal (cur : ℚ) (l : List SarStep) : ℚ :=
  l.foldl (fun _ s => s.currentApproximation) cur

theorem sarFold_length (v vRef : ℚ) (N : ℕ) :
    ∀ (l : List ℕ) (cur : ℚ), (sarFold v vRef N l cur).length = l.length := by
  intro l
  induction l with
  | nil => intro cur; rfl
  | cons i rest ih =>
      intro cur
      simp only [sarFold]
      split <;> simp [ih]

theorem sarFinal_getLast :
    ∀ (l : List SarStep) (cur : ℚ), l ≠ [] →
      ∃ s, l.getLast? = some s ∧ s.currentApproximation = sarFinal cur l := by
  intro l
  induction l with
  | nil => intro cur h; exact absurd rfl h
  | cons a t ih =>
      intro cur _
      cases t with
      | nil => exact ⟨a, rfl, by simp [sarFinal]⟩
      | cons b t2 =>
          obtain ⟨s, hs, hsf⟩ := ih a.currentApproximation (by simp)
          refine ⟨s, ?_, ?_⟩
          · rw [List.getLast?_cons_cons]
            exact hs
          · rw [hsf]
            simp [sarFinal]

/-- Binary-search invariant of the SAR loop: starting iteration `i` with a
running approximation at most `vRef / 2^i` below the input, the recorded
approximations are non-decreasing and after `cnt` further iterations the
deficit is at most `vRef / 2^(i+cnt)`. -/
theorem sarFold_invariant (v vRef : ℚ) (N : ℕ) (hR : 0 ≤ vRef) :
    ∀ (cnt i : ℕ) (cur : ℚ), 0 ≤ v - cur → v - cur ≤ vRef / 2 ^ i →
      List.Chain' (· ≤ ·)
        (cur :: (sarFold v vRef N (List.range' i cnt) cur).map
          (fun s => s.currentApproximation)) ∧
      0 ≤ v - sarFinal cur (sarFold v vRef N (List.range' i cnt) cur) ∧
      v - sarFinal cur (sarFold v vRef N (List.range' i cnt) cur) ≤
        vRef / 2 ^ (i + cnt) := by
  intro cnt
  induction cnt with
  | zero =>
      intro i cur h0 h1
      refine ⟨List.chain'_singleton cur, ?_, ?_⟩
      · simpa [sarFinal] using h0
      · simpa [sarFinal] using h1
  | succ n ih =>
      intro i cur h0 h1
      have hw : (0 : ℚ) ≤ vRef / 2 ^ (i + 1) := by positivity
      have hhalf : vRef / 2 ^ i = 2 * (vRef / 2 ^ (i + 1)) := by
        rw [pow_succ]
        field_simp
        ring
      have hexp : i + 1 + n = i + (n + 1) := by omega
      rw [List.range'_succ]
      simp only [sarFold]
      by_cases hkeep : cur + vRef / 2 ^ (i + 1) ≤ v
      · rw [if_pos hkeep]
        have hnext0 : 0 ≤ v - (cur + vRef / 2 ^ (i + 1)) := by linarith
        have hnext1 : v - (cur + vRef / 2 ^ (i + 1)) ≤ vRef / 2 ^ (i + 1) := by
          linarith
        obtain ⟨hch, hg, hl⟩ := ih (i + 1) (cur + vRef / 2 ^ (i + 1)) hnext0 hnext1
        rw [hexp] at hl
        refine ⟨?_, ?_, ?_⟩
        · rw [List.map_cons, List.chain'_cons]
          exact ⟨by linarith, hch⟩
        · simpa [sarFinal] using hg
        · simpa [sarFinal] using hl
      · rw [if_neg hkeep]
        have hnext1 : v - cur ≤ vRef / 2 ^ (i + 1) := by
          push_neg at hkeep
          linarith
        obtain ⟨hch, hg, hl⟩ := ih (i + 1) cur h0 hnext1
        rw [hexp] at hl
        refine ⟨?_, ?_, ?_⟩
        · rw [List.map_cons, List.chain'_cons]
          exact ⟨le_refl cur, hch⟩
        · simpa [sarFinal] using hg
        · simpa [sarFinal] using hl

theorem sarSteps_ne_nil (v vRef : ℚ) (N : ℕ) (hN : 1 ≤ N) :
    sarSteps v vRef N ≠ [] := by
  obtain ⟨m, rfl⟩ : ∃ m, N = m + 1 := ⟨N - 1, by omega⟩
  rw [sarSteps, List.range_eq_range', List.range'_succ]
  simp only [sarFold]
  split <;> simp

/-- C7: for every resolution N ≥ 1 and input in [0, vRef], the SAR simulator
runs exactly N steps, its cumulative approximations are non-decreasing, and the
final approximation is within one full LSB (vRef / 2^N) of the input. -/
theorem sar_monotone_within_lsb (v vRef : ℚ) (N : ℕ)
    (hN : 1 ≤ N) (h0 : 0 ≤ v) (h1 : v ≤ vRef) :
    List.Chain' (· ≤ ·) ((sarSteps v vRef N).map (fun s => s.currentApproximation)) ∧
    (sarSteps v vRef N).length = N ∧
    ∃ s, (sarSteps v vRef N).getLast? = some s ∧
      |v - s.currentApproximation| ≤ vRef / 2 ^ N := by
  have hR : 0 ≤ vRef := le_trans h0 h1
  have key := sarFold_invariant v vRef N hR N 0 0 (by simpa using h0)
    (by simpa using h1)
  rw [← List.range_eq_range'] at key
  obtain ⟨hchain, hge, hle⟩ := key
  refine ⟨hchain.tail, ?_, ?_⟩
  · rw [sarSteps, sarFold_length, List.length_range]
  · obtain ⟨s, hs, hsf⟩ :=
      sarFinal_getLast (sarSteps v vRef N) 0 (sarSteps_ne_nil v vRef N hN)
    refine ⟨s, hs, ?_⟩
    rw [hsf, abs_of_nonneg (by simpa [sarSteps] using hge)]
    simpa [sarSteps] using hle

/-- Witness for `sar_monotone_within_lsb` at v = 1, vRef = 2, N = 1. -/
theorem sar_monotone_within_lsb_witness :
    1 ≤ 1 ∧ (0 : ℚ) ≤ 1 ∧ (1 : ℚ) ≤ 2 ∧
    (List.Chain' (· ≤ ·) ((sarSteps 1 2 1).map (fun s => s.currentApproximation)) ∧
     (sarSteps 1 2 1).length = 1 ∧
     ∃ s, (sarSteps 1 2 1).getLast? = some s ∧
       |(1 : ℚ) - s.currentApproximation| ≤ 2 / 2 ^ 1) :=
  ⟨le_refl 1, by norm_num, by norm_num,
   sar_monotone_within_lsb 1 2 1 (le_refl 1) (by norm_num) (by norm_num)⟩

/-- src/components/ADCVisualizer.tsx: fixed integration time `t1 = 100`. -/
def dualSlopeT1 : ℚ := 100

/-- src/components/ADCVisualizer.tsx: de-integration time
`t2 = (inputVoltage / vRef) * t1`. -/
def dualSlopeT2 (inputVoltage vRef : ℚ) : ℚ := inputVoltage / vRef * dualSlopeT1

/-- src/components/ADCVisualizer.tsx: full-scale code `2^resolution - 1`. -/
def dualSlopeMaxCount (resolution : ℕ) : ℕ := 2 ^ resolution - 1

/-- src/components/ADCVisualizer.tsx `dualSlopeCount`:
`Math.round((t2 / t1) * dualSlopeMaxCount)`.  Lean's `round` on ℚ, like
JavaScript's `Math.round`, rounds halves toward positive infinity. -/
def dualSlopeCount (inputVoltage vRef : ℚ) (resolution : ℕ) : ℤ :=
  round (dualSlopeT2 inputVoltage vRef / dualSlopeT1 * (dualSlopeMaxCount resolution : ℚ))

theorem dualSlope_t2_div_t1 (v vRef : ℚ) :
    dualSlopeT2 v vRef / dualSlopeT1 = v / vRef := by
  rw [dualSlopeT2, dualSlopeT1]
  rw [mul_div_cancel_right₀ _ (by norm_num : (100 : ℚ) ≠ 0)]

theorem dualSlopeMaxCount_cast (N : ℕ) :
    ((dualSlopeMaxCount N : ℕ) : ℚ) = (2 ^ N : ℚ) - 1 := by
  rw [dualSlopeMaxCount, Nat.cast_sub Nat.one_le_two_pow]
  push_cast
  ring

/-- C8: the dual-slope simulator satisfies T2/T1 = v/vRef exactly, its code is
round(T2/T1 * (2^N - 1)), full-scale input yields 2^N - 1, and zero input
yields 0. -/
theorem dual_slope_law (v vRef : ℚ) (N : ℕ)
    (hR : 0 < vRef) (h0 : 0 ≤ v) (h1 : v ≤ vRef) :
    dualSlopeT2 v vRef / dualSlopeT1 = v / vRef ∧
    dualSlopeCount v vRef N =
      round (dualSlopeT2 v vRef / dualSlopeT1 * ((2 ^ N : ℚ) - 1)) ∧
    dualSlopeCount vRef vRef N = 2 ^ N - 1 ∧
    dualSlopeCount 0 vRef N = 0 := by
  refine ⟨dualSlope_t2_div_t1 v vRef, ?_, ?_, ?_⟩
  · rw [dualSlopeCount, dualSlopeMaxCount_cast]
  · rw [dualSlopeCount, dualSlopeMaxCount_cast, dualSlope_t2_div_t1,
      div_self (ne_of_gt hR), one_mul]
    have : round ((2 ^ N : ℚ) - 1) = round (((2 ^ N - 1 : ℤ) : ℚ)) := by
      norm_num
    rw [this, round_intCast]
  · rw [dualSlopeCount, dualSlope_t2_div_t1, zero_div, zero_mul, round_zero]

/-- Witness for `dual_slope_law` at v = 1, vRef = 2, N = 4. -/
theorem dual_slope_law_witness :
    (0 : ℚ) < 2 ∧ (0 : ℚ) ≤ 1 ∧ (1 : ℚ) ≤ 2 ∧
    (dualSlopeT2 1 2 / dualSlopeT1 = 1 / 2 ∧
     dualSlopeCount 1 2 4 = round (dualSlopeT2 1 2 / dualSlopeT1 * ((2 ^ 4 : ℚ) - 1)) ∧
     dualSlopeCount 2 2 4 = 2 ^ 4 - 1 ∧
     dualSlopeCount 0 2 4 = 0) :=
  ⟨by norm_num, by norm_num, by norm_num,
   dual_slope_law 1 2 4 (by norm_num) (by norm_num) (by norm_num)⟩

/-- C4 counterexample: at resolution 0 each simulator quietly returns a value
(SAR: the empty step list; dual-slope: code 0; DAC: the unmasked product) --
no precondition violation is signalled anywhere. -/
theorem resolution_zero_counterexample :
    sarSteps 1 2 0 = [] ∧ dualSlopeCount 1 2 0 = 0 ∧ dacOutputVoltage 2 0 3 = 6 := by
  refine ⟨rfl, ?_, ?_⟩
  · norm_num [dualSlopeCount, dualSlopeT2, dualSlopeT1, dualSlopeMaxCount]
  · norm_num [dacOutputVoltage, dacStepSize]

/-- C4 amended: for resolution 0 (the ℕ shadow of N ≤ 0) the simulators are
total and silent: SAR returns the empty step list, the dual-slope code is 0,
and the DAC returns `value * vRef`; nothing fails fast. -/
theorem resolution_zero_quiet (v vRef uRef : ℚ) (value : ℕ) :
    sarSteps v vRef 0 = [] ∧
    dualSlopeCount v vRef 0 = 0 ∧
    dacOutputVoltage uRef 0 value = value * uRef := by
  refine ⟨rfl, ?_, ?_⟩
  · norm_num [dualSlopeCount, dualSlopeMaxCount]
  · norm_num [dacOutputVoltage, dacStepSize]

/-- Witness for `resolution_zero_quiet` at v = 1, vRef = 2, uRef = 2, D = 3. -/
theorem resolution_zero_quiet_witness :
    sarSteps 1 2 0 = [] ∧
    dualSlopeCount 1 2 0 = 0 ∧
    dacOutputVoltage 2 0 3 = ((3 : ℕ) : ℚ) * 2 :=
  resolution_zero_quiet 1 2 2 3

/-! ## SPI frame generator (src/utils/protocolLogic.ts generateSPISequence) -/

/-- Semantic tag of an SPI frame. -/
inductive SPITag where
  | idle | data | setup | sample
deriving DecidableEq, Repr

/-- One SPI frame (src/types.ts `SPISignalFrame`, minus the positional `id`). -/
structure SPISignalFrame where
  label : String
  cs : ℕ
  sck : ℕ
  mosi : ℕ
  miso : ℕ
  type : SPITag
  duration : ℚ
deriving DecidableEq, Repr

def labelCSLow : String := "CS Low"
def labelCSHigh : String := "CS High"

/-- src/utils/protocolLogic.ts `generateSPISequence`: CPOL = bit 1 of the mode
sets the idle clock level, CPHA = bit 0 selects which edge sets up vs samples
the data; 8 bits MSB-first, two half-unit frames per bit, then (for CPHA = 0)
an explicit return of the clock to idle, then chip-select deasserts. -/
def generateSPISequence (dataTx dataRx mode : ℕ) : List SPISignalFrame :=
  let cpol : ℕ := if mode &&& 2 ≠ 0 then 1 else 0
  let cpha : ℕ := if mode &&& 1 ≠ 0 then 1 else 0
  let idleSCK := cpol
  let activeSCK := 1 - cpol
  [⟨labelIdle, 1, idleSCK, 1, 1, SPITag.idle, 1⟩,
   ⟨labelCSLow, 0, idleSCK, 1, 1, SPITag.setup, 1/2⟩]
  ++ ([7, 6, 5, 4, 3, 2, 1, 0] : List ℕ).flatMap (fun i =>
      if cpha = 0 then
        [⟨labelD i, 0, idleSCK, (dataTx >>> i) &&& 1, (dataRx >>> i) &&& 1,
          SPITag.data, 1/2⟩,
         ⟨labelD i, 0, activeSCK, (dataTx >>> i) &&& 1, (dataRx >>> i) &&& 1,
          SPITag.data, 1/2⟩]
      else
        [⟨labelD i, 0, activeSCK, (dataTx >>> i) &&& 1, (dataRx >>> i) &&& 1,
          SPITag.data, 1/2⟩,
         ⟨labelD i, 0, idleSCK, (dataTx >>> i) &&& 1, (dataRx >>> i) &&& 1,
          SPITag.data, 1/2⟩])
  ++ (if cpha = 0 then [⟨labelNone, 0, idleSCK, 1, 1, SPITag.idle, 1/2⟩] else [])
  ++ [⟨labelCSHigh, 1, idleSCK, 1, 1, SPITag.idle, 1⟩]

/-- Readback harness: the mode's designated sample edge as a (from, to) pair of
clock levels — the first edge (idle to active) when CPHA = 0, the second edge
(active back to idle) when CPHA = 1. -/
def spiSampleEdge (mode : ℕ) : ℕ × ℕ :=
  let cpol : ℕ := if mode &&& 2 ≠ 0 then 1 else 0
  let cpha : ℕ := if mode &&& 1 ≠ 0 then 1 else 0
  if cpha = 0 then (cpol, 1 - cpol) else (1 - cpol, cpol)

/-- Readback harness: the level of `line` at each occurrence of the clock edge
`e` (a transition of SCK from `e.1` to `e.2` between consecutive frames). -/
def sampleOnEdge (e : ℕ × ℕ) (line : SPISignalFrame → ℕ)
    (fs : List SPISignalFrame) : List ℕ :=
  (fs.zip fs.tail).filterMap
    (fun p => if p.1.sck = e.1 ∧ p.2.sck = e.2 then some (line p.2) else none)

/-- The content of claim C6 for a concrete (tx, rx, mode) triple: sampling
MOSI and MISO only on the mode's designated sample edge recovers both bytes. -/
def SPIRoundTrip (tx rx mode : ℕ) : Prop :=
  readMSB (sampleOnEdge (spiSampleEdge mode) SPISignalFrame.mosi
    (generateSPISequence tx rx mode)) = tx ∧
  readMSB (sampleOnEdge (spiSampleEdge mode) SPISignalFrame.miso
    (generateSPISequence tx rx mode)) = rx

set_option maxHeartbeats 1600000 in
/-- C6: for every pair of bytes and every SPI mode 0-3, reconstructing the
controller-out and peripheral-out bytes by sampling only on the mode's
designated sample edge reproduces the two inputs exactly. -/
theorem spi_roundtrip (tx rx mode : ℕ) (htx : tx < 256) (hrx : rx < 256)
    (hm : mode < 4) : SPIRoundTrip tx rx mode := by
  interval_cases mode
  · constructor
    · have h : sampleOnEdge (spiSampleEdge 0) SPISignalFrame.mosi
          (generateSPISequence tx rx 0) =
          [(tx >>> 7) &&& 1, (tx >>> 6) &&& 1, (tx >>> 5) &&& 1, (tx >>> 4) &&& 1,
           (tx >>> 3) &&& 1, (tx >>> 2) &&& 1, (tx >>> 1) &&& 1, (tx >>> 0) &&& 1] := rfl
      rw [h]
      exact readMSB_eight tx htx
    · have h : sampleOnEdge (spiSampleEdge 0) SPISignalFrame.miso
          (generateSPISequence tx rx 0) =
          [(rx >>> 7) &&& 1, (rx >>> 6) &&& 1, (rx >>> 5) &&& 1, (rx >>> 4) &&& 1,
           (rx >>> 3) &&& 1, (rx >>> 2) &&& 1, (rx >>> 1) &&& 1, (rx >>> 0) &&& 1] := rfl
      rw [h]
      exact readMSB_eight rx hrx
  · constructor
    · have h : sampleOnEdge (spiSampleEdge 1) SPISignalFrame.mosi
          (generateSPISequence tx rx 1) =
          [(tx >>> 7) &&& 1, (tx >>> 6) &&& 1, (tx >>> 5) &&& 1, (tx >>> 4) &&& 1,
           (tx >>> 3) &&& 1, (tx >>> 2) &&& 1, (tx >>> 1) &&& 1, (tx >>> 0) &&& 1] := rfl
      rw [h]
      exact readMSB_eight tx htx
    · have h : sampleOnEdge (spiSampleEdge 1) SPISignalFrame.miso
          (generateSPISequence tx rx 1) =
          [(rx >>> 7) &&& 1, (rx >>> 6) &&& 1, (rx >>> 5) &&& 1, (rx >>> 4) &&& 1,
           (rx >>> 3) &&& 1, (rx >>> 2) &&& 1, (rx >>> 1) &&& 1, (rx >>> 0) &&& 1] := rfl
      rw [h]
      exact readMSB_eight rx hrx
  · constructor
    · have h : sampleOnEdge (spiSampleEdge 2) SPISignalFrame.mosi
          (generateSPISequence tx rx 2) =
          [(tx >>> 7) &&& 1, (tx >>> 6) &&& 1, (tx >>> 5) &&& 1, (tx >>> 4) &&& 1,
           (tx >>> 3) &&& 1, (tx >>> 2) &&& 1, (tx >>> 1) &&& 1, (tx >>> 0) &&& 1] := rfl
      rw [h]
      exact readMSB_eight tx htx
    · have h : sampleOnEdge (spiSampleEdge 2) SPISignalFrame.miso
          (generateSPISequence tx rx 2) =
          [(rx >>> 7) &&& 1, (rx >>> 6) &&& 1, (rx >>> 5) &&& 1, (rx >>> 4) &&& 1,
           (rx >>> 3) &&& 1, (rx >>> 2) &&& 1, (rx >>> 1) &&& 1, (rx >>> 0) &&& 1] := rfl
      rw [h]
      exact readMSB_eight rx hrx
  · constructor
    · have h : sampleOnEdge (spiSampleEdge 3) SPISignalFrame.mosi
          (generateSPISequence tx rx 3) =
          [(tx >>> 7) &&& 1, (tx >>> 6) &&& 1, (tx >>> 5) &&& 1, (tx >>> 4) &&& 1,
           (tx >>> 3) &&& 1, (tx >>> 2) &&& 1, (tx >>> 1) &&& 1, (tx >>> 0) &&& 1] := rfl
      rw [h]
      exact readMSB_eight tx htx
    · have h : sampleOnEdge (spiSampleEdge 3) SPISignalFrame.miso
          (generateSPISequence tx rx 3) =
          [(rx >>> 7) &&& 1, (rx >>> 6) &&& 1, (rx >>> 5) &&& 1, (rx >>> 4) &&& 1,
           (rx >>> 3) &&& 1, (rx >>> 2) &&& 1, (rx >>> 1) &&& 1, (rx >>> 0) &&& 1] := rfl
      rw [h]
      exact readMSB_eight rx hrx

/-- Witness for `spi_roundtrip` at tx = 0xF0, rx = 0x0F, mode = 0. -/
theorem spi_roundtrip_witness :
    240 < 256 ∧ 15 < 256 ∧ 0 < 4 ∧ SPIRoundTrip 240 15 0 :=
  ⟨by norm_num, by norm_num, by norm_num,
   spi_roundtrip 240 15 0 (by norm_num) (by norm_num) (by norm_num)⟩

/-! ## I2C multi-master arbitration (generateArbitrationSequence) -/

/-- Wired-AND bus resolution of the arbitration `addFrame` helper:
`(effectiveA === 0 || effectiveB === 0) ? 0 : 1`. -/
def wiredAnd (x y : ℕ) : ℕ := if x = 0 ∨ y = 0 then 0 else 1

/-- The arbitration generator's `addFrame` helper: a lost master's effective
drive level is forced to 1 (released), the bus SDA is the wired-AND of the two
effective levels, and the state tags reflect the lost flags. -/
def mkArbFrame (aLost bLost : Bool) (label : String) (sdaA sdaB scl : ℕ)
    (tag : I2CTag) (duration : ℚ) : I2CSignalFrame :=
  let effectiveA := if aLost then 1 else sdaA
  let effectiveB := if bLost then 1 else sdaB
  ⟨label, wiredAnd effectiveA effectiveB, scl, tag, duration,
   some effectiveA, some effectiveB,
   some (if aLost then MasterState.lost else MasterState.active),
   some (if bLost then MasterState.lost else MasterState.active)⟩

/-- Loss check of the arbitration loop body, performed before the bit's frames
are emitted: while both masters are still active, a master driving 1 against
the other's 0 loses. -/
def arbUpdate (bitA bitB : ℕ) (aLost bLost : Bool) : Bool × Bool :=
  if ¬aLost ∧ ¬bLost then
    if bitA = 1 ∧ bitB = 0 then (true, bLost)
    else if bitA = 0 ∧ bitB = 1 then (aLost, true)
    else (aLost, bLost)
  else (aLost, bLost)

/-- The three half-unit frames of one arbitration address bit (set data with
clock low, clock high, clock low). -/
def arbBitFrames (aLost bLost : Bool) (i bitA bitB : ℕ) : List I2CSignalFrame :=
  [mkArbFrame aLost bLost (labelA i) bitA bitB 0 I2CTag.address (1/2),
   mkArbFrame aLost bLost (labelA i) bitA bitB 1 I2CTag.address (1/2),
   mkArbFrame aLost bLost (labelA i) bitA bitB 0 I2CTag.address (1/2)]

/-- Address-bit loop of the arbitration generator over bits n-1 .. 0 (the
source iterates i = 6 .. 0), threading the two lost flags; returns the emitted
frames and the final flags.  The updated flags are used for the very frames of
the bit in which loss is detected (check before frame emission, as in the
source). -/
def arbLoop (addrA addrB : ℕ) : ℕ → Bool → Bool → List I2CSignalFrame × Bool × Bool
  | 0, aLost, bLost => ([], aLost, bLost)
  | n + 1, aLost, bLost =>
    let bitA := (addrA >>> n) &&& 1
    let bitB := (addrB >>> n) &&& 1
    let st := arbUpdate bitA bitB aLost bLost
    let rest := arbLoop addrA addrB n st.1 st.2
    (arbBitFrames st.1 st.2 n bitA bitB ++ rest.1, rest.2)

/-- An acknowledge frame of the arbitration trace: pushed directly by the
source with both masters released (`sdaA: 1, sdaB: 1`) while the slave pulls
the bus low (`sda: 0`). -/
def arbAckFrame (aLost bLost : Bool) (scl : ℕ) : I2CSignalFrame :=
  ⟨labelACK, 0, scl, I2CTag.ack, 1/2, some 1, some 1,
   some (if aLost then MasterState.lost else MasterState.active),
   some (if bLost then MasterState.lost else MasterState.active)⟩

/-- src/utils/protocolLogic.ts `generateArbitrationSequence`: idle, start,
settle, seven arbitration address bits MSB-first, the shared write bit, three
slave-driven acknowledge frames, stop. -/
def generateArbitrationSequence (addrA addrB : ℕ) : List I2CSignalFrame :=
  let res := arbLoop addrA addrB 7 false false
  let aLost := res.2.1
  let bLost := res.2.2
  [mkArbFrame false false labelIdle 1 1 1 I2CTag.idle 1,
   mkArbFrame false false labelStart 0 0 1 I2CTag.start 1,
   mkArbFrame false false labelNone 0 0 0 I2CTag.start (1/2)]
  ++ res.1
  ++ [mkArbFrame aLost bLost labelW 0 0 0 I2CTag.address (1/2),
      mkArbFrame aLost bLost labelW 0 0 1 I2CTag.address (1/2),
      mkArbFrame aLost bLost labelW 0 0 0 I2CTag.address (1/2)]
  ++ [arbAckFrame aLost bLost 0, arbAckFrame aLost bLost 1, arbAckFrame aLost bLost 0]
  ++ [mkArbFrame aLost bLost labelStop 0 0 0 I2CTag.stop (1/2),
      mkArbFrame aLost bLost labelStop 0 0 1 I2CTag.stop (1/2),
      mkArbFrame aLost bLost labelStop 1 1 1 I2CTag.stop 1]

theorem arbLoop_succ (a b n : ℕ) (aL bL : Bool) :
    arbLoop a b (n + 1) aL bL =
      (arbBitFrames (arbUpdate ((a >>> n) &&& 1) ((b >>> n) &&& 1) aL bL).1
          (arbUpdate ((a >>> n) &&& 1) ((b >>> n) &&& 1) aL bL).2 n
          ((a >>> n) &&& 1) ((b >>> n) &&& 1) ++
        (arbLoop a b n (arbUpdate ((a >>> n) &&& 1) ((b >>> n) &&& 1) aL bL).1
          (arbUpdate ((a >>> n) &&& 1) ((b >>> n) &&& 1) aL bL).2).1,
       (arbLoop a b n (arbUpdate ((a >>> n) &&& 1) ((b >>> n) &&& 1) aL bL).1
          (arbUpdate ((a >>> n) &&& 1) ((b >>> n) &&& 1) aL bL).2).2) := rfl

theorem generateArbitration_eq (a b : ℕ) :
    generateArbitrationSequence a b =
      [mkArbFrame false false labelIdle 1 1 1 I2CTag.idle 1,
       mkArbFrame false false labelStart 0 0 1 I2CTag.start 1,
       mkArbFrame false false labelNone 0 0 0 I2CTag.start (1/2)]
      ++ (arbLoop a b 7 false false).1
      ++ [mkArbFrame (arbLoop a b 7 false false).2.1 (arbLoop a b 7 false false).2.2
            labelW 0 0 0 I2CTag.address (1/2),
          mkArbFrame (arbLoop a b 7 false false).2.1 (arbLoop a b 7 false false).2.2
            labelW 0 0 1 I2CTag.address (1/2),
          mkArbFrame (arbLoop a b 7 false false).2.1 (arbLoop a b 7 false false).2.2
            labelW 0 0 0 I2CTag.address (1/2)]
      ++ [arbAckFrame (arbLoop a b 7 false false).2.1 (arbLoop a b 7 false false).2.2 0,
          arbAckFrame (arbLoop a b 7 false false).2.1 (arbLoop a b 7 false false).2.2 1,
          arbAckFrame (arbLoop a b 7 false false).2.1 (arbLoop a b 7 false false).2.2 0]
      ++ [mkArbFrame (arbLoop a b 7 false false).2.1 (arbLoop a b 7 false false).2.2
            labelStop 0 0 0 I2CTag.stop (1/2),
          mkArbFrame (arbLoop a b 7 false false).2.1 (arbLoop a b 7 false false).2.2
            labelStop 0 0 1 I2CTag.stop (1/2),
          mkArbFrame (arbLoop a b 7 false false).2.1 (arbLoop a b 7 false false).2.2
            labelStop 1 1 1 I2CTag.stop 1] := rfl

theorem bitVal_testBit (x i : ℕ) :
    (x >>> i) &&& 1 = if x.testBit i then 1 else 0 := by
  simp only [Nat.shiftRight_eq_div_pow, Nat.and_one_is_mod, Nat.testBit_to_div_mod]
  rcases Nat.mod_two_eq_zero_or_one (x / 2 ^ i) with h | h <;> simp [h]

theorem arbUpdate_eq_same (v : ℕ) (aL bL : Bool) :
    arbUpdate v v aL bL = (aL, bL) := by
  unfold arbUpdate
  have h1 : ¬(v = 1 ∧ v = 0) := by omega
  have h2 : ¬(v = 0 ∧ v = 1) := by omega
  by_cases hb : ¬aL ∧ ¬bL <;> simp [hb, h1, h2]

theorem arbUpdate_lostA (bitA bitB : ℕ) (bL : Bool) :
    arbUpdate bitA bitB true bL = (true, bL) := by
  unfold arbUpdate
  simp

theorem arbUpdate_lostB (bitA bitB : ℕ) (aL : Bool) :
    arbUpdate bitA bitB aL true = (aL, true) := by
  unfold arbUpdate
  simp

/-- Once master A's lost flag is set, every later frame of the address loop
records its drive as released (1) and its state as lost, and the flags are
unchanged by the rest of the loop. -/
theorem arbLoop_lostA (a b : ℕ) :
    ∀ (n : ℕ) (bL : Bool),
      (∀ f ∈ (arbLoop a b n true bL).1,
        f.sdaA = some 1 ∧ f.masterAState = some MasterState.lost) ∧
      (arbLoop a b n true bL).2 = (true, bL) := by
  intro n
  induction n with
  | zero => intro bL; exact ⟨by simp [arbLoop], rfl⟩
  | succ m ih =>
      intro bL
      rw [arbLoop_succ, arbUpdate_lostA]
      constructor
      · intro f hf
        simp only [List.mem_append] at hf
        rcases hf with hf | hf
        · simp only [arbBitFrames, List.mem_cons, List.not_mem_nil, or_false] at hf
          rcases hf with rfl | rfl | rfl <;> exact ⟨rfl, rfl⟩
        · exact (ih bL).1 f hf
      · exact (ih bL).2

/-- Mirror image of `arbLoop_lostA` for master B. -/
theorem arbLoop_lostB (a b : ℕ) :
    ∀ (n : ℕ) (aL : Bool),
      (∀ f ∈ (arbLoop a b n aL true).1,
        f.sdaB = some 1 ∧ f.masterBState = some MasterState.lost) ∧
      (arbLoop a b n aL true).2 = (aL, true) := by
  intro n
  induction n with
  | zero => intro aL; exact ⟨by simp [arbLoop], rfl⟩
  | succ m ih =>
      intro aL
      rw [arbLoop_succ, arbUpdate_lostB]
      constructor
      · intro f hf
        simp only [List.mem_append] at hf
        rcases hf with hf | hf
        · simp only [arbBitFrames, List.mem_cons, List.not_mem_nil, or_false] at hf
          rcases hf with rfl | rfl | rfl <;> exact ⟨rfl, rfl⟩
        · exact (ih aL).1 f hf
      · exact (ih aL).2

theorem arbLoop_succ_fst (a b n : ℕ) (aL bL : Bool) :
    (arbLoop a b (n + 1) aL bL).1 =
      arbBitFrames (arbUpdate ((a >>> n) &&& 1) ((b >>> n) &&& 1) aL bL).1
          (arbUpdate ((a >>> n) &&& 1) ((b >>> n) &&& 1) aL bL).2 n
          ((a >>> n) &&& 1) ((b >>> n) &&& 1) ++
        (arbLoop a b n (arbUpdate ((a >>> n) &&& 1) ((b >>> n) &&& 1) aL bL).1
          (arbUpdate ((a >>> n) &&& 1) ((b >>> n) &&& 1) aL bL).2).1 := rfl

theorem arbLoop_succ_snd (a b n : ℕ) (aL bL : Bool) :
    (arbLoop a b (n + 1) aL bL).2 =
      (arbLoop a b n (arbUpdate ((a >>> n) &&& 1) ((b >>> n) &&& 1) aL bL).1
        (arbUpdate ((a >>> n) &&& 1) ((b >>> n) &&& 1) aL bL).2).2 := rfl

/-- Every frame of the address loop is built by the `addFrame` helper with an
address tag and duration 1/2. -/
theorem arbLoop_shape (a b : ℕ) :
    ∀ (n : ℕ) (aL bL : Bool), ∀ f ∈ (arbLoop a b n aL bL).1,
      ∃ aL' bL' i v w scl,
        f = mkArbFrame aL' bL' (labelA i) v w scl I2CTag.address (1/2) := by
  intro n
  induction n with
  | zero => intro aL bL f hf; simp [arbLoop] at hf
  | succ m ih =>
      intro aL bL f hf
      rw [arbLoop_succ_fst] at hf
      simp only [List.mem_append] at hf
      rcases hf with hf | hf
      · simp only [arbBitFrames, List.mem_cons, List.not_mem_nil, or_false] at hf
        rcases hf with rfl | rfl | rfl <;> exact ⟨_, _, _, _, _, _, rfl⟩
      · exact ih _ _ f hf

/-- The address loop splits into an all-active front and an all-lost back part
for master A; the back part is empty whenever the final A flag is false. -/
theorem arbLoop_splitA (a b : ℕ) :
    ∀ (n : ℕ) (aL bL : Bool),
      ∃ p s, (arbLoop a b n aL bL).1 = p ++ s ∧
        (∀ f ∈ p, f.masterAState = some MasterState.active) ∧
        (∀ f ∈ s, f.sdaA = some 1 ∧ f.masterAState = some MasterState.lost) ∧
        ((arbLoop a b n aL bL).2.1 = false → s = []) := by
  intro n
  induction n with
  | zero =>
      intro aL bL
      exact ⟨[], [], rfl, by simp, by simp, fun _ => rfl⟩
  | succ m ih =>
      intro aL bL
      cases hA : (arbUpdate ((a >>> m) &&& 1) ((b >>> m) &&& 1) aL bL).1
      · obtain ⟨p, s, heq, hact, hlost, himp⟩ :=
          ih (arbUpdate ((a >>> m) &&& 1) ((b >>> m) &&& 1) aL bL).1
            (arbUpdate ((a >>> m) &&& 1) ((b >>> m) &&& 1) aL bL).2
        refine ⟨arbBitFrames (arbUpdate ((a >>> m) &&& 1) ((b >>> m) &&& 1) aL bL).1
            (arbUpdate ((a >>> m) &&& 1) ((b >>> m) &&& 1) aL bL).2 m
            ((a >>> m) &&& 1) ((b >>> m) &&& 1) ++ p, s, ?_, ?_, hlost, ?_⟩
        · rw [arbLoop_succ_fst, heq, List.append_assoc]
        · intro f hf
          simp only [List.mem_append] at hf
          rcases hf with hf | hf
          · rw [hA] at hf
            simp only [arbBitFrames, List.mem_cons, List.not_mem_nil, or_false] at hf
            rcases hf with rfl | rfl | rfl <;> rfl
          · exact hact f hf
        · intro hfin
          rw [arbLoop_succ_snd] at hfin
          exact himp hfin
      · rw [arbLoop_succ_fst, arbLoop_succ_snd, hA]
        refine ⟨[],
          arbBitFrames true ((arbUpdate ((a >>> m) &&& 1) ((b >>> m) &&& 1) aL bL).2) m
              ((a >>> m) &&& 1) ((b >>> m) &&& 1) ++
            (arbLoop a b m true
              ((arbUpdate ((a >>> m) &&& 1) ((b >>> m) &&& 1) aL bL).2)).1,
          (List.nil_append _).symm, by simp, ?_, ?_⟩
        · intro f hf
          simp only [List.mem_append] at hf
          rcases hf with hf | hf
          · simp only [arbBitFrames, List.mem_cons, List.not_mem_nil, or_false] at hf
            rcases hf with rfl | rfl | rfl <;> exact ⟨rfl, rfl⟩
          · exact (arbLoop_lostA a b m
              (arbUpdate ((a >>> m) &&& 1) ((b >>> m) &&& 1) aL bL).2).1 f hf
        · intro hfin
          rw [(arbLoop_lostA a b m
            (arbUpdate ((a >>> m) &&& 1) ((b >>> m) &&& 1) aL bL).2).2] at hfin
          simp at hfin

/-- Mirror image of `arbLoop_splitA` for master B. -/
theorem arbLoop_splitB (a b : ℕ) :
    ∀ (n : ℕ) (aL bL : Bool),
      ∃ p s, (arbLoop a b n aL bL).1 = p ++ s ∧
        (∀ f ∈ p, f.masterBState = some MasterState.active) ∧
        (∀ f ∈ s, f.sdaB = some 1 ∧ f.masterBState = some MasterState.lost) ∧
        ((arbLoop a b n aL bL).2.2 = false → s = []) := by
  intro n
  induction n with
  | zero =>
      intro aL bL
      exact ⟨[], [], rfl, by simp, by simp, fun _ => rfl⟩
  | succ m ih =>
      intro aL bL
      cases hB : (arbUpdate ((a >>> m) &&& 1) ((b >>> m) &&& 1) aL bL).2
      · obtain ⟨p, s, heq, hact, hlost, himp⟩ :=
          ih (arbUpdate ((a >>> m) &&& 1) ((b >>> m) &&& 1) aL bL).1
            (arbUpdate ((a >>> m) &&& 1) ((b >>> m) &&& 1) aL bL).2
        refine ⟨arbBitFrames (arbUpdate ((a >>> m) &&& 1) ((b >>> m) &&& 1) aL bL).1
            (arbUpdate ((a >>> m) &&& 1) ((b >>> m) &&& 1) aL bL).2 m
            ((a >>> m) &&& 1) ((b >>> m) &&& 1) ++ p, s, ?_, ?_, hlost, ?_⟩
        · rw [arbLoop_succ_fst, heq, List.append_assoc]
        · intro f hf
          simp only [List.mem_append] at hf
          rcases hf with hf | hf
          · rw [hB] at hf
            simp only [arbBitFrames, List.mem_cons, List.not_mem_nil, or_false] at hf
            rcases hf with rfl | rfl | rfl <;> rfl
          · exact hact f hf
        · intro hfin
          rw [arbLoop_succ_snd] at hfin
          exact himp hfin
      · rw [arbLoop_succ_fst, arbLoop_succ_snd, hB]
        refine ⟨[],
          arbBitFrames ((arbUpdate ((a >>> m) &&& 1) ((b >>> m) &&& 1) aL bL).1) true m
              ((a >>> m) &&& 1) ((b >>> m) &&& 1) ++
            (arbLoop a b m
              ((arbUpdate ((a >>> m) &&& 1) ((b >>> m) &&& 1) aL bL).1) true).1,
          (List.nil_append _).symm, by simp, ?_, ?_⟩
        · intro f hf
          simp only [List.mem_append] at hf
          rcases hf with hf | hf
          · simp only [arbBitFrames, List.mem_cons, List.not_mem_nil, or_false] at hf
            rcases hf with rfl | rfl | rfl <;> exact ⟨rfl, rfl⟩
          · exact (arbLoop_lostB a b m
              (arbUpdate ((a >>> m) &&& 1) ((b >>> m) &&& 1) aL bL).1).1 f hf
        · intro hfin
          rw [(arbLoop_lostB a b m
            (arbUpdate ((a >>> m) &&& 1) ((b >>> m) &&& 1) aL bL).1).2] at hfin
          simp at hfin

/-- While the two addresses agree on all bits above position k, the loop's
frames down to bit k+1 keep both masters active and leave the flags alone. -/
theorem arbLoop_eq_bits (a b : ℕ) :
    ∀ (n k : ℕ), k < n → (∀ j, k < j → j < n → a.testBit j = b.testBit j) →
      ∃ p, (arbLoop a b n false false).1 = p ++ (arbLoop a b (k + 1) false false).1 ∧
        p.length = 3 * (n - (k + 1)) ∧
        (∀ f ∈ p, f.masterAState = some MasterState.active ∧
                  f.masterBState = some MasterState.active) ∧
        (arbLoop a b n false false).2 = (arbLoop a b (k + 1) false false).2 := by
  intro n
  induction n with
  | zero => intro k hk _; exact absurd hk (Nat.not_lt_zero k)
  | succ m ih =>
      intro k hk heq
      by_cases hkm : k = m
      · subst hkm
        exact ⟨[], by simp, by simp, by simp, rfl⟩
      · have hklt : k < m := by omega
        have hbit : (a >>> m) &&& 1 = (b >>> m) &&& 1 := by
          rw [bitVal_testBit, bitVal_testBit, heq m (by omega) (by omega)]
        have hupd : arbUpdate ((a >>> m) &&& 1) ((b >>> m) &&& 1) false false =
            (false, false) := by rw [hbit]; exact arbUpdate_eq_same _ false false
        obtain ⟨p, hp, hlen, hact, hfl⟩ := ih k hklt (fun j h1 h2 => heq j h1 (by omega))
        refine ⟨arbBitFrames false false m ((a >>> m) &&& 1) ((b >>> m) &&& 1) ++ p,
          ?_, ?_, ?_, ?_⟩
        · rw [arbLoop_succ_fst]
          simp only [hupd]
          rw [hp, List.append_assoc]
        · simp only [List.length_append, arbBitFrames, List.length_cons,
            List.length_nil, hlen]
          omega
        · intro f hf
          simp only [List.mem_append] at hf
          rcases hf with hf | hf
          · simp only [arbBitFrames, List.mem_cons, List.not_mem_nil, or_false] at hf
            rcases hf with rfl | rfl | rfl <;> exact ⟨rfl, rfl⟩
          · exact hact f hf
        · rw [arbLoop_succ_snd]
          simp only [hupd]
          exact hfl

/-- At a bit where A proposes 1 and B proposes 0, A's lost flag is set before
the bit's three frames are emitted, and the loop ends with flags (true, false). -/
theorem arbLoop_lossA_step (a b k : ℕ)
    (hA : a.testBit k = true) (hB : b.testBit k = false) :
    (arbLoop a b (k + 1) false false).1 =
      arbBitFrames true false k 1 0 ++ (arbLoop a b k true false).1 ∧
    (arbLoop a b (k + 1) false false).2 = (true, false) := by
  have hbA : (a >>> k) &&& 1 = 1 := by rw [bitVal_testBit, hA]; rfl
  have hbB : (b >>> k) &&& 1 = 0 := by rw [bitVal_testBit, hB]; rfl
  constructor
  · rw [arbLoop_succ_fst, hbA, hbB]
    rfl
  · rw [arbLoop_succ_snd, hbA, hbB]
    show (arbLoop a b k true false).2 = (true, false)
    exact (arbLoop_lostA a b k false).2

/-- At a bit where B proposes 1 and A proposes 0, B's lost flag is set before
the bit's three frames are emitted, and the loop ends with flags (false, true). -/
theorem arbLoop_lossB_step (a b k : ℕ)
    (hA : a.testBit k = false) (hB : b.testBit k = true) :
    (arbLoop a b (k + 1) false false).1 =
      arbBitFrames false true k 0 1 ++ (arbLoop a b k false true).1 ∧
    (arbLoop a b (k + 1) false false).2 = (false, true) := by
  have hbA : (a >>> k) &&& 1 = 0 := by rw [bitVal_testBit, hA]; rfl
  have hbB : (b >>> k) &&& 1 = 1 := by rw [bitVal_testBit, hB]; rfl
  constructor
  · rw [arbLoop_succ_fst, hbA, hbB]
    rfl
  · rw [arbLoop_succ_snd, hbA, hbB]
    show (arbLoop a b k false true).2 = (false, true)
    exact (arbLoop_lostB a b k false).2

/-- The content of claim C1 when master A is the loser at bit k: the trace
splits into an all-active front of exactly 3 + 3*(6-k) frames, the three
frames of bit k, and the rest.  The bit-k frames still record A's originally
proposed drive level (which is 1, the same as the released level), already tag
A as lost (the loss check runs before the bus level is computed), and show the
bus pulled low by B's 0; from the next bit on, A's recorded level is the
released 1 in every remaining frame. -/
def ArbLossTimingA (a b k : ℕ) : Prop :=
  ∃ p f1 f2 f3 q,
    generateArbitrationSequence a b = p ++ [f1, f2, f3] ++ q ∧
    p.length = 3 + 3 * (6 - k) ∧
    (∀ f ∈ p, f.masterAState = some MasterState.active ∧
              f.masterBState = some MasterState.active) ∧
    (∀ f ∈ [f1, f2, f3],
       f.sdaA = some ((a >>> k) &&& 1) ∧ f.sdaA = some 1 ∧
       f.masterAState = some MasterState.lost ∧ f.sda = 0) ∧
    (∀ f ∈ q, f.sdaA = some 1 ∧ f.masterAState = some MasterState.lost)

/-- Mirror image of `ArbLossTimingA` with master B the loser. -/
def ArbLossTimingB (a b k : ℕ) : Prop :=
  ∃ p f1 f2 f3 q,
    generateArbitrationSequence a b = p ++ [f1, f2, f3] ++ q ∧
    p.length = 3 + 3 * (6 - k) ∧
    (∀ f ∈ p, f.masterAState = some MasterState.active ∧
              f.masterBState = some MasterState.active) ∧
    (∀ f ∈ [f1, f2, f3],
       f.sdaB = some ((b >>> k) &&& 1) ∧ f.sdaB = some 1 ∧
       f.masterBState = some MasterState.lost ∧ f.sda = 0) ∧
    (∀ f ∈ q, f.sdaB = some 1 ∧ f.masterBState = some MasterState.lost)

/-- C1: when the two 7-bit addresses first differ at bit k (bits above k
equal), the master proposing 1 there loses; the three frames of bit k still
record its proposed drive level, the loss check has already run for those
frames (state lost, bus low), and the released level 1 is what every following
frame records for the loser. -/
theorem arbitration_loss_timing (a b k : ℕ) (ha : a < 128) (hb : b < 128)
    (hk : k < 7) (hhi : ∀ j, k < j → j < 7 → a.testBit j = b.testBit j)
    (hne : a.testBit k ≠ b.testBit k) :
    (a.testBit k = true → ArbLossTimingA a b k) ∧
    (b.testBit k = true → ArbLossTimingB a b k) := by
  constructor
  · intro hA
    have hB : b.testBit k = false := by
      cases h : b.testBit k
      · rfl
      · rw [hA, h] at hne; exact absurd rfl hne
    have hbA : (a >>> k) &&& 1 = 1 := by rw [bitVal_testBit, hA]; rfl
    obtain ⟨p0, hp0, hlen0, hact0, hfl0⟩ := arbLoop_eq_bits a b 7 k hk hhi
    obtain ⟨hstep, hflags⟩ := arbLoop_lossA_step a b k hA hB
    have hfl : (arbLoop a b 7 false false).2 = (true, false) := hfl0.trans hflags
    have hfl1 : (arbLoop a b 7 false false).2.1 = true := by rw [hfl]
    have hfl2 : (arbLoop a b 7 false false).2.2 = false := by rw [hfl]
    refine ⟨[mkArbFrame false false labelIdle 1 1 1 I2CTag.idle 1,
             mkArbFrame false false labelStart 0 0 1 I2CTag.start 1,
             mkArbFrame false false labelNone 0 0 0 I2CTag.start (1/2)] ++ p0,
      mkArbFrame true false (labelA k) 1 0 0 I2CTag.address (1/2),
      mkArbFrame true false (labelA k) 1 0 1 I2CTag.address (1/2),
      mkArbFrame true false (labelA k) 1 0 0 I2CTag.address (1/2),
      (arbLoop a b k true false).1
        ++ [mkArbFrame true false labelW 0 0 0 I2CTag.address (1/2),
            mkArbFrame true false labelW 0 0 1 I2CTag.address (1/2),
            mkArbFrame true false labelW 0 0 0 I2CTag.address (1/2)]
        ++ [arbAckFrame true false 0, arbAckFrame true false 1,
            arbAckFrame true false 0]
        ++ [mkArbFrame true false labelStop 0 0 0 I2CTag.stop (1/2),
            mkArbFrame true false labelStop 0 0 1 I2CTag.stop (1/2),
            mkArbFrame true false labelStop 1 1 1 I2CTag.stop 1],
      ?_, ?_, ?_, ?_, ?_⟩
    · rw [generateArbitration_eq, hfl1, hfl2, hp0, hstep]
      simp [arbBitFrames, List.append_assoc]
    · simp only [List.length_append, List.length_cons, List.length_nil, hlen0]
      omega
    · intro f hf
      simp only [List.mem_append, List.mem_cons, List.not_mem_nil, or_false] at hf
      rcases hf with (rfl | rfl | rfl) | hf
      · exact ⟨rfl, rfl⟩
      · exact ⟨rfl, rfl⟩
      · exact ⟨rfl, rfl⟩
      · exact hact0 f hf
    · intro f hf
      simp only [List.mem_cons, List.not_mem_nil, or_false] at hf
      rcases hf with rfl | rfl | rfl <;> exact ⟨by rw [hbA]; rfl, rfl, rfl, rfl⟩
    · intro f hf
      simp only [List.append_assoc, List.cons_append, List.nil_append,
        List.mem_append, List.mem_cons, List.not_mem_nil, or_false] at hf
      rcases hf with hf | rfl | rfl | rfl | rfl | rfl | rfl | rfl | rfl | rfl
      · exact (arbLoop_lostA a b k false).1 f hf
      all_goals exact ⟨rfl, rfl⟩
  · intro hB
    have hA : a.testBit k = false := by
      cases h : a.testBit k
      · rfl
      · rw [hB, h] at hne; exact absurd rfl hne
    have hbB : (b >>> k) &&& 1 = 1 := by rw [bitVal_testBit, hB]; rfl
    obtain ⟨p0, hp0, hlen0, hact0, hfl0⟩ := arbLoop_eq_bits a b 7 k hk hhi
    obtain ⟨hstep, hflags⟩ := arbLoop_lossB_step a b k hA hB
    have hfl : (arbLoop a b 7 false false).2 = (false, true) := hfl0.trans hflags
    have hfl1 : (arbLoop a b 7 false false).2.1 = false := by rw [hfl]
    have hfl2 : (arbLoop a b 7 false false).2.2 = true := by rw [hfl]
    refine ⟨[mkArbFrame false false labelIdle 1 1 1 I2CTag.idle 1,
             mkArbFrame false false labelStart 0 0 1 I2CTag.start 1,
             mkArbFrame false false labelNone 0 0 0 I2CTag.start (1/2)] ++ p0,
      mkArbFrame false true (labelA k) 0 1 0 I2CTag.address (1/2),
      mkArbFrame false true (labelA k) 0 1 1 I2CTag.address (1/2),
      mkArbFrame false true (labelA k) 0 1 0 I2CTag.address (1/2),
      (arbLoop a b k false true).1
        ++ [mkArbFrame false true labelW 0 0 0 I2CTag.address (1/2),
            mkArbFrame false true labelW 0 0 1 I2CTag.address (1/2),
            mkArbFrame false true labelW 0 0 0 I2CTag.address (1/2)]
        ++ [arbAckFrame false true 0, arbAckFrame false true 1,
            arbAckFrame false true 0]
        ++ [mkArbFrame false true labelStop 0 0 0 I2CTag.stop (1/2),
            mkArbFrame false true labelStop 0 0 1 I2CTag.stop (1/2),
            mkArbFrame false true labelStop 1 1 1 I2CTag.stop 1],
      ?_, ?_, ?_, ?_, ?_⟩
    · rw [generateArbitration_eq, hfl1, hfl2, hp0, hstep]
      simp [arbBitFrames, List.append_assoc]
    · simp only [List.length_append, List.length_cons, List.length_nil, hlen0]
      omega
    · intro f hf
      simp only [List.mem_append, List.mem_cons, List.not_mem_nil, or_false] at hf
      rcases hf with (rfl | rfl | rfl) | hf
      · exact ⟨rfl, rfl⟩
      · exact ⟨rfl, rfl⟩
      · exact ⟨rfl, rfl⟩
      · exact hact0 f hf
    · intro f hf
      simp only [List.mem_cons, List.not_mem_nil, or_false] at hf
      rcases hf with rfl | rfl | rfl <;> exact ⟨by rw [hbB]; rfl, rfl, rfl, rfl⟩
    · intro f hf
      simp only [List.append_assoc, List.cons_append, List.nil_append,
        List.mem_append, List.mem_cons, List.not_mem_nil, or_false] at hf
      rcases hf with hf | rfl | rfl | rfl | rfl | rfl | rfl | rfl | rfl | rfl
      · exact (arbLoop_lostB a b k false).1 f hf
      all_goals exact ⟨rfl, rfl⟩

/-- Witness for `arbitration_loss_timing` at addresses 0x21 and 0x25, which
first differ at bit 2 where B proposes 1: B loses. -/
theorem arbitration_loss_timing_witness :
    33 < 128 ∧ 37 < 128 ∧ 2 < 7 ∧
    (∀ j, 2 < j → j < 7 → Nat.testBit 33 j = Nat.testBit 37 j) ∧
    Nat.testBit 33 2 ≠ Nat.testBit 37 2 ∧
    ArbLossTimingB 33 37 2 :=
  ⟨by norm_num, by norm_num, by norm_num,
   by intro j h1 h2; interval_cases j <;> rfl,
   by decide,
   (arbitration_loss_timing 33 37 2 (by norm_num) (by norm_num) (by norm_num)
     (by intro j h1 h2; interval_cases j <;> rfl) (by decide)).2 (by decide)⟩

/-- The content of the amended claim C2: outside the three acknowledge frames
the bus SDA is the wired-AND of the two masters' recorded effective levels; in
the acknowledge frames the slave pulls the bus low while both masters are
released at 1; and each master's trace splits into an all-active front and a
suffix in which its state is lost and its recorded level is pinned at 1. -/
def ArbInvariant (a b : ℕ) : Prop :=
  (∀ f ∈ generateArbitrationSequence a b,
     f.type ≠ I2CTag.ack → f.sda = wiredAnd (f.sdaA.getD 1) (f.sdaB.getD 1)) ∧
  (∀ f ∈ generateArbitrationSequence a b,
     f.type = I2CTag.ack → f.sda = 0 ∧ f.sdaA = some 1 ∧ f.sdaB = some 1) ∧
  (∃ p s, generateArbitrationSequence a b = p ++ s ∧
     (∀ f ∈ p, f.masterAState = some MasterState.active) ∧
     (∀ f ∈ s, f.sdaA = some 1 ∧ f.masterAState = some MasterState.lost)) ∧
  (∃ p s, generateArbitrationSequence a b = p ++ s ∧
     (∀ f ∈ p, f.masterBState = some MasterState.active) ∧
     (∀ f ∈ s, f.sdaB = some 1 ∧ f.masterBState = some MasterState.lost))

/-- C2 (amended): the wired-AND relation between the bus SDA and the two
masters' recorded levels holds in every frame except the slave-driven
acknowledge frames, and once a master is lost its recorded level is 1 in every
subsequent frame. -/
theorem arbitration_wired_and_released (a b : ℕ) : ArbInvariant a b := by
  have shape : ∀ f ∈ generateArbitrationSequence a b,
      (∃ aL bL l v w scl t d, t ≠ I2CTag.ack ∧ f = mkArbFrame aL bL l v w scl t d) ∨
      (∃ aL bL scl, f = arbAckFrame aL bL scl) := by
    intro f hf
    rw [generateArbitration_eq] at hf
    simp only [List.mem_append, List.mem_cons, List.not_mem_nil, or_false,
      or_assoc] at hf
    rcases hf with rfl | rfl | rfl | hf | rfl | rfl | rfl | rfl | rfl | rfl | rfl |
      rfl | rfl
    · refine Or.inl ⟨_, _, _, _, _, _, _, _, ?_, rfl⟩; decide
    · refine Or.inl ⟨_, _, _, _, _, _, _, _, ?_, rfl⟩; decide
    · refine Or.inl ⟨_, _, _, _, _, _, _, _, ?_, rfl⟩; decide
    · obtain ⟨aL', bL', i, v, w, scl, rfl⟩ := arbLoop_shape a b 7 false false f hf
      refine Or.inl ⟨_, _, _, _, _, _, _, _, ?_, rfl⟩; decide
    · refine Or.inl ⟨_, _, _, _, _, _, _, _, ?_, rfl⟩; decide
    · refine Or.inl ⟨_, _, _, _, _, _, _, _, ?_, rfl⟩; decide
    · refine Or.inl ⟨_, _, _, _, _, _, _, _, ?_, rfl⟩; decide
    · exact Or.inr ⟨_, _, _, rfl⟩
    · exact Or.inr ⟨_, _, _, rfl⟩
    · exact Or.inr ⟨_, _, _, rfl⟩
    · refine Or.inl ⟨_, _, _, _, _, _, _, _, ?_, rfl⟩; decide
    · refine Or.inl ⟨_, _, _, _, _, _, _, _, ?_, rfl⟩; decide
    · refine Or.inl ⟨_, _, _, _, _, _, _, _, ?_, rfl⟩; decide
  refine ⟨?_, ?_, ?_, ?_⟩
  · intro f hf hne
    rcases shape f hf with ⟨aL, bL, l, v, w, scl, t, d, hta, rfl⟩ | ⟨aL, bL, scl, rfl⟩
    · rfl
    · exact absurd rfl hne
  · intro f hf hty
    rcases shape f hf with ⟨aL, bL, l, v, w, scl, t, d, hta, rfl⟩ | ⟨aL, bL, scl, rfl⟩
    · exact absurd hty hta
    · exact ⟨rfl, rfl, rfl⟩
  · obtain ⟨p, s, heq, hact, hlost, himp⟩ := arbLoop_splitA a b 7 false false
    cases hflag : (arbLoop a b 7 false false).2.1
    · refine ⟨generateArbitrationSequence a b, [], by simp, ?_, by simp⟩
      intro f hf
      rw [generateArbitration_eq] at hf
      simp only [List.mem_append, List.mem_cons, List.not_mem_nil, or_false,
        or_assoc] at hf
      rcases hf with rfl | rfl | rfl | hf | rfl | rfl | rfl | rfl | rfl | rfl | rfl |
        rfl | rfl
      · rfl
      · rfl
      · rfl
      · rw [himp hflag, List.append_nil] at heq
        rw [heq] at hf
        exact hact f hf
      all_goals (rw [hflag]; rfl)
    · refine ⟨[mkArbFrame false false labelIdle 1 1 1 I2CTag.idle 1,
               mkArbFrame false false labelStart 0 0 1 I2CTag.start 1,
               mkArbFrame false false labelNone 0 0 0 I2CTag.start (1/2)] ++ p,
        s ++ [mkArbFrame true ((arbLoop a b 7 false false).2.2) labelW 0 0 0
                I2CTag.address (1/2),
              mkArbFrame true ((arbLoop a b 7 false false).2.2) labelW 0 0 1
                I2CTag.address (1/2),
              mkArbFrame true ((arbLoop a b 7 false false).2.2) labelW 0 0 0
                I2CTag.address (1/2)]
          ++ [arbAckFrame true ((arbLoop a b 7 false false).2.2) 0,
              arbAckFrame true ((arbLoop a b 7 false false).2.2) 1,
              arbAckFrame true ((arbLoop a b 7 false false).2.2) 0]
          ++ [mkArbFrame true ((arbLoop a b 7 false false).2.2) labelStop 0 0 0
                I2CTag.stop (1/2),
              mkArbFrame true ((arbLoop a b 7 false false).2.2) labelStop 0 0 1
                I2CTag.stop (1/2),
              mkArbFrame true ((arbLoop a b 7 false false).2.2) labelStop 1 1 1
                I2CTag.stop 1], ?_, ?_, ?_⟩
      · rw [generateArbitration_eq, hflag, heq]
        simp [List.append_assoc]
      · intro f hf
        simp only [List.mem_append, List.mem_cons, List.not_mem_nil, or_false] at hf
        rcases hf with (rfl | rfl | rfl) | hf
        · rfl
        · rfl
        · rfl
        · exact hact f hf
      · intro f hf
        simp only [List.append_assoc, List.cons_append, List.nil_append,
          List.mem_append, List.mem_cons, List.not_mem_nil, or_false] at hf
        rcases hf with hf | rfl | rfl | rfl | rfl | rfl | rfl | rfl | rfl | rfl
        · exact hlost f hf
        all_goals exact ⟨rfl, rfl⟩
  · obtain ⟨p, s, heq, hact, hlost, himp⟩ := arbLoop_splitB a b 7 false false
    cases hflag : (arbLoop a b 7 false false).2.2
    · refine ⟨generateArbitrationSequence a b, [], by simp, ?_, by simp⟩
      intro f hf
      rw [generateArbitration_eq] at hf
      simp only [List.mem_append, List.mem_cons, List.not_mem_nil, or_false,
        or_assoc] at hf
      rcases hf with rfl | rfl | rfl | hf | rfl | rfl | rfl | rfl | rfl | rfl | rfl |
        rfl | rfl
      · rfl
      · rfl
      · rfl
      · rw [himp hflag, List.append_nil] at heq
        rw [heq] at hf
        exact hact f hf
      all_goals (rw [hflag]; rfl)
    · refine ⟨[mkArbFrame false false labelIdle 1 1 1 I2CTag.idle 1,
               mkArbFrame false false labelStart 0 0 1 I2CTag.start 1,
               mkArbFrame false false labelNone 0 0 0 I2CTag.start (1/2)] ++ p,
        s ++ [mkArbFrame ((arbLoop a b 7 false false).2.1) true labelW 0 0 0
                I2CTag.address (1/2),
              mkArbFrame ((arbLoop a b 7 false false).2.1) true labelW 0 0 1
                I2CTag.address (1/2),
              mkArbFrame ((arbLoop a b 7 false false).2.1) true labelW 0 0 0
                I2CTag.address (1/2)]
          ++ [arbAckFrame ((arbLoop a b 7 false false).2.1) true 0,
              arbAckFrame ((arbLoop a b 7 false false).2.1) true 1,
              arbAckFrame ((arbLoop a b 7 false false).2.1) true 0]
          ++ [mkArbFrame ((arbLoop a b 7 false false).2.1) true labelStop 0 0 0
                I2CTag.stop (1/2),
              mkArbFrame ((arbLoop a b 7 false false).2.1) true labelStop 0 0 1
                I2CTag.stop (1/2),
              mkArbFrame ((arbLoop a b 7 false false).2.1) true labelStop 1 1 1
                I2CTag.stop 1], ?_, ?_, ?_⟩
      · rw [generateArbitration_eq, hflag, heq]
        simp [List.append_assoc]
      · intro f hf
        simp only [List.mem_append, List.mem_cons, List.not_mem_nil, or_false] at hf
        rcases hf with (rfl | rfl | rfl) | hf
        · rfl
        · rfl
        · rfl
        · exact hact f hf
      · intro f hf
        simp only [List.append_assoc, List.cons_append, List.nil_append,
          List.mem_append, List.mem_cons, List.not_mem_nil, or_false] at hf
        rcases hf with hf | rfl | rfl | rfl | rfl | rfl | rfl | rfl | rfl | rfl
        · exact hlost f hf
        all_goals exact ⟨rfl, rfl⟩

/-- Witness for `arbitration_wired_and_released` at addresses 0x21 and 0x25. -/
theorem arbitration_wired_and_released_witness : ArbInvariant 33 37 :=
  arbitration_wired_and_released 33 37

/-- C2 counterexample: in the trace for addresses 0x21 and 0x25 the first
acknowledge frame has bus SDA 0 although both masters' recorded effective
levels are 1, so the bus is not the wired-AND of the two masters' levels in
every frame (the slave is the third driver there). -/
theorem arbitration_wired_and_counterexample :
    ∃ f ∈ generateArbitrationSequence 33 37,
      f.sda ≠ wiredAnd (f.sdaA.getD 1) (f.sdaB.getD 1) := by
  decide

end ProtoSim
